import Mathlib

/-!
Verification development for the swh-provenance query engine.

The definitions below are a shallow embedding of the Rust sources of the
repository (`src/rust/src/`): the multi-layer pruning pipeline of
`database/table.rs` and `database/types.rs`, the reader pool of
`database/pooled_reader.rs`, the metadata cache of
`database/caching_parquet_reader.rs`, and the query layer of `queries.rs`.
Unsigned 64-bit keys are modelled as `Nat` (only order comparisons occur, so
overflow is irrelevant); fallible Rust code returning `Result` is modelled
with `Except String`; a `todo!()` panic is modelled as an `Except.error`.
-/

namespace SwhProvenance

/-! ## Key-type pruning checks

Embedding of `impl IndexKey for u64` in `src/rust/src/database/types.rs`.
`check_column_chunk` keeps a row group when
`row_group_min <= max_key && row_group_max >= min_key` (inclusive bounds),
while `check_page_index` keeps a page when
`data_page_min < max_key && data_page_max > min_key` (strict bounds, as
written in the source at lines 178 and 185).
A statistics entry is a `(min, max)` pair; the functions return `none`
exactly when the key set is empty (the Rust code returns an `Err` built by
`context("... got empty set of keys")` in that case).
Statistics are modelled as always present; the arrow null-statistics path is
not modelled (no claim depends on it). -/

/-- Per-row-group test of `<u64 as IndexKey>::check_column_chunk`:
keep iff `row_group_min <= max_key` and `row_group_max >= min_key`. -/
def chunkKeep (minKey maxKey : Nat) (stat : Nat × Nat) : Bool :=
  decide (stat.1 ≤ maxKey) && decide (minKey ≤ stat.2)

/-- `<u64 as IndexKey>::check_column_chunk` over the row-group statistics of a
file: an entry is `true` iff the row group may contain one of the keys. -/
def checkColumnChunk (keys : List Nat) (stats : List (Nat × Nat)) :
    Option (List Bool) :=
  match keys.min?, keys.max? with
  | some minKey, some maxKey => some (stats.map (chunkKeep minKey maxKey))
  | _, _ => none

/-- Per-page test of `<u64 as IndexKey>::check_page_index`:
keep iff `data_page_min < max_key` and `data_page_max > min_key`.
The comparisons are strict in the source (types.rs lines 178 and 185),
unlike `check_column_chunk` and the `Sha1Git` instance. -/
def pageKeep (minKey maxKey : Nat) (stat : Nat × Nat) : Bool :=
  decide (stat.1 < maxKey) && decide (minKey < stat.2)

/-- `<u64 as IndexKey>::check_page_index` over the data-page statistics of the
selected row groups: an entry is `true` iff the page is selected. -/
def checkPageIndex (keys : List Nat) (stats : List (Nat × Nat)) :
    Option (List Bool) :=
  match keys.min?, keys.max? with
  | some minKey, some maxKey => some (stats.map (pageKeep minKey maxKey))
  | _, _ => none

/-- Claim C2: for a u64 key set and a data page whose min/max statistics are
both equal to a query key `k`, `check_page_index` is claimed to mark the page
as selected.  The code does the opposite: with key set `[5]` and pages with
statistics `(5, 5)` and `(7, 9)`, the page whose statistics are exactly
`[5, 5]` is pruned (entry `false`), because the comparison
`data_page_min < max_key` is strict; the disjoint peer page is pruned too. -/
theorem checkPageIndex_prunes_singleton_page :
    checkPageIndex [5] [(5, 5), (7, 9)] = some [false, false] := by
  rfl

/-- Claim C4: for every non-empty u64 key set and every row group with
min/max statistics on the key column, `check_column_chunk` keeps the row
group if and only if the interval `[row_group_min, row_group_max]` intersects
`[min keys, max keys]`; in particular a query key equal to the row group's
min or to its max causes the row group to be selected. -/
theorem checkColumnChunk_keeps_iff_intervals_intersect
    (keys : List Nat) (stats : List (Nat × Nat)) (bits : List Bool)
    (kmin kmax : Nat) (i : Nat) (hi : i < stats.length) (hib : i < bits.length)
    (hmin : keys.min? = some kmin) (hmax : keys.max? = some kmax)
    (hrun : checkColumnChunk keys stats = some bits)
    (hvalid : (stats.get ⟨i, hi⟩).1 ≤ (stats.get ⟨i, hi⟩).2) :
    (bits.get ⟨i, hib⟩ = true ↔
      ∃ x, (stats.get ⟨i, hi⟩).1 ≤ x ∧ x ≤ (stats.get ⟨i, hi⟩).2 ∧
        kmin ≤ x ∧ x ≤ kmax) ∧
    (∀ k ∈ keys, (k = (stats.get ⟨i, hi⟩).1 ∨ k = (stats.get ⟨i, hi⟩).2) →
      bits.get ⟨i, hib⟩ = true) := by
  have hkmin := List.min?_eq_some_iff'.1 hmin
  have hkmax := List.max?_eq_some_iff'.1 hmax
  have hbits : bits = stats.map (chunkKeep kmin kmax) := by
    unfold checkColumnChunk at hrun
    rw [hmin, hmax] at hrun
    exact (Option.some.injEq _ _ ▸ hrun).symm
  subst hbits
  have hget : (stats.map (chunkKeep kmin kmax)).get ⟨i, hib⟩ =
      chunkKeep kmin kmax (stats.get ⟨i, hi⟩) := by
    simp [List.getElem_map]
  rw [hget]
  set s := stats.get ⟨i, hi⟩ with hs
  have hkk : kmin ≤ kmax := hkmax.2 kmin hkmin.1
  have hkeep : chunkKeep kmin kmax s = true ↔ s.1 ≤ kmax ∧ kmin ≤ s.2 := by
    simp [chunkKeep]
  constructor
  · rw [hkeep]
    constructor
    · rintro ⟨h1, h2⟩
      refine ⟨max s.1 kmin, Nat.le_max_left _ _, ?_, Nat.le_max_right _ _, ?_⟩
      · exact Nat.max_le.2 ⟨hvalid, h2⟩
      · exact Nat.max_le.2 ⟨h1, hkk⟩
    · rintro ⟨x, hx1, hx2, hx3, hx4⟩
      exact ⟨Nat.le_trans hx1 hx4, Nat.le_trans hx3 hx2⟩
  · intro k hk hcase
    rw [hkeep]
    have hlow : kmin ≤ k := hkmin.2 k hk
    have hhigh : k ≤ kmax := hkmax.2 k hk
    cases hcase with
    | inl h1 =>
      exact ⟨h1 ▸ hhigh, Nat.le_trans (h1 ▸ hlow) hvalid⟩
    | inr h2 =>
      exact ⟨Nat.le_trans hvalid (h2 ▸ hhigh), h2 ▸ hlow⟩

/-- Witness for claim C4 at a concrete input: key set `[3, 5]`, a single row
group with statistics `(4, 6)`; the row group is kept and the key `5` lies in
both intervals. -/
theorem checkColumnChunk_keeps_iff_intervals_intersect_witness :
    (([true] : List Bool).get ⟨0, by decide⟩ = true ↔
      ∃ x, (([(4, 6)] : List (Nat × Nat)).get ⟨0, by decide⟩).1 ≤ x ∧
        x ≤ (([(4, 6)] : List (Nat × Nat)).get ⟨0, by decide⟩).2 ∧
        3 ≤ x ∧ x ≤ 5) ∧
    (∀ k ∈ [3, 5], (k = (([(4, 6)] : List (Nat × Nat)).get ⟨0, by decide⟩).1 ∨
        k = (([(4, 6)] : List (Nat × Nat)).get ⟨0, by decide⟩).2) →
      ([true] : List Bool).get ⟨0, by decide⟩ = true) :=
  checkColumnChunk_keeps_iff_intervals_intersect [3, 5] [(4, 6)] [true] 3 5 0
    (by decide) (by decide) (by decide) (by decide) (by rfl) (by decide)

/-! ## Table scan pipeline

Embedding of `Table::filtered_record_batch_stream_builder`
(`src/rust/src/database/table.rs`, lines 155-469) instantiated at the u64 key
type, combined with the row filter installed by `query_x_in_y_table`'s
`Predicate::evaluate` (`src/rust/src/queries.rs`, lines 121-143).

A file is a list of row groups; a row group is a list of pages carrying
`(key, payload)` rows plus min/max statistics and an optional bloom filter
(modelled by the set of keys it answers positively, which characterises any
bloom filter); a file optionally carries a column index (page statistics) and
an optional file-level Elias-Fano index, modelled by the list of keys it
contains. -/

structure Page where
  rows : List (Nat × Nat)
  statMin : Nat
  statMax : Nat
deriving DecidableEq

structure RowGroup where
  pages : List Page
  statMin : Nat
  statMax : Nat
  bloom : Option (List Nat)
deriving DecidableEq

structure PFile where
  groups : List RowGroup
  hasColumnIndex : Bool
  efIndex : Option (List Nat)
deriving DecidableEq

def groupRows (g : RowGroup) : List (Nat × Nat) :=
  (g.pages.map Page.rows).flatten

def fileRows (f : PFile) : List (Nat × Nat) :=
  (f.groups.map groupRows).flatten

/-- File-level Elias-Fano pruning stage (table.rs lines 176-201): when the
index is absent a warning is logged (second component `true`) and the full
key set is kept; when it is present the keys are filtered through it
(`u64::as_ef_key` is always `Some`), and an empty filtered set skips the
file entirely (`none`). -/
def efStage (keys : List Nat) (f : PFile) : Option (List Nat) × Bool :=
  match f.efIndex with
  | none => (some keys, true)
  | some ef =>
    let keysInFile := keys.filter (fun k => ef.contains k)
    if keysInFile.isEmpty then (none, false) else (some keysInFile, false)

/-- Bloom-filter stage for one row group (table.rs lines 288-308): if the row
group has a bloom filter on the key column, the group survives iff at least
one key tests positive; a missing filter cannot prune. -/
def bloomKeeps (keys : List Nat) (g : RowGroup) : Bool :=
  match g.bloom with
  | none => true
  | some positives => keys.any (fun k => positives.contains k)

/-- Row-group selection (table.rs lines 259-317): a row group is selected iff
its statistics bit from `check_column_chunk` is `true` and the bloom filter
does not rule it out.  (For u64 keys `check_column_chunk` never returns
`Ok(None)`, so the select-every-row-group fallback is unreachable here.) -/
def selectRowGroups (keys : List Nat) (groups : List RowGroup) :
    Except String (List RowGroup) :=
  match checkColumnChunk keys (groups.map (fun g => (g.statMin, g.statMax))) with
  | none => .error "check_column_chunk got empty set of keys"
  | some bits =>
    .ok ((groups.zip bits).filterMap
      (fun gb => if gb.2 && bloomKeeps keys gb.1 then some gb.1 else none))

/-- Page-index stage (table.rs lines 322-405): the pages of the selected row
groups are tested in order by `check_page_index`; the rows of the selected
pages (the translation into row-index ranges is the identity on a page
partition of each row group) survive. -/
def selectPages (keys : List Nat) (selGroups : List RowGroup) :
    Except String (List (Nat × Nat)) :=
  let pages := (selGroups.map RowGroup.pages).flatten
  match checkPageIndex keys (pages.map (fun p => (p.statMin, p.statMax))) with
  | none => .error "check_page_index got empty set of keys"
  | some bits =>
    .ok (((pages.zip bits).filterMap
      (fun pb => if pb.2 then some pb.1.rows else none)).flatten)

/-- Scan of one file by `Table::filtered_record_batch_stream_builder`, with
the row filter installed by `query_x_in_y_table`: EF pruning, row-group
statistics, bloom filters, page index (skipped when the file has no column
index, accepting all rows of selected row groups), then the exact per-row
predicate `Predicate::evaluate`, which tests membership of the key in the
original full key set by binary search (the key set is sorted, so binary
search coincides with membership). -/
def scanFile (keys : List Nat) (f : PFile) : Except String (List (Nat × Nat)) :=
  match (efStage keys f).1 with
  | none => .ok []
  | some ks =>
    if ks.isEmpty then .ok []
    else
      match selectRowGroups ks f.groups with
      | .error e => .error e
      | .ok selGroups =>
        match
          (if f.hasColumnIndex then selectPages ks selGroups
           else .ok ((selGroups.map groupRows).flatten)) with
        | .error e => .error e
        | .ok rowsSel => .ok (rowsSel.filter (fun r => keys.contains r.1))

/-- A whole-table scan: the per-file streams are flattened into one stream;
the order across files is unspecified in the source (a bounded channel), so
concatenation in file order is a representative interleaving. -/
def scanTable (keys : List Nat) (files : List PFile) :
    Except String (List (Nat × Nat)) :=
  match files.mapM (scanFile keys) with
  | .error e => .error e
  | .ok perFile => .ok perFile.flatten

/-! ### Faithfulness of the auxiliary structures

These decidable predicates say that the indexes and statistics agree with the
file contents, as assumed by the spec's invariants (spec.md section 3). -/

/-- The page statistics are the true min/max of the page's keys. -/
def pageFaithful (p : Page) : Bool :=
  ((p.rows.map Prod.fst).min? == some p.statMin) &&
  ((p.rows.map Prod.fst).max? == some p.statMax)

/-- The row-group statistics are the true min/max of the group's keys, every
page is faithful, and a bloom filter (when present) has no false negative. -/
def groupFaithful (g : RowGroup) : Bool :=
  (((groupRows g).map Prod.fst).min? == some g.statMin) &&
  (((groupRows g).map Prod.fst).max? == some g.statMax) &&
  g.pages.all pageFaithful &&
  (match g.bloom with
   | none => true
   | some positives => (groupRows g).all (fun r => positives.contains r.1))

/-- The Elias-Fano index (when present) contains exactly the keys occurring
in the file: `k ∈ index` iff some row of the file has key `k`. -/
def efFaithful (f : PFile) : Bool :=
  match f.efIndex with
  | none => true
  | some ef =>
    ef.all (fun k => (fileRows f).any (fun r => r.1 == k)) &&
    (fileRows f).all (fun r => ef.contains r.1)

/-- Every index and statistic of the file agrees with its contents. -/
def fileFaithful (f : PFile) : Bool :=
  efFaithful f && f.groups.all groupFaithful

/-- A concrete file used as a counterexample input: one row group holding one
page with rows `(5, 100)` and `(9, 200)`, correct statistics `(5, 9)` at both
levels, a faithful bloom filter, a column index, and a faithful Elias-Fano
index `[5, 9]`. -/
def exFile : PFile :=
  { groups := [{ pages := [{ rows := [(5, 100), (9, 200)],
                             statMin := 5, statMax := 9 }],
                 statMin := 5, statMax := 9,
                 bloom := some [5, 9] }],
    hasColumnIndex := true,
    efIndex := some [5, 9] }

/-- The same file with its Elias-Fano index absent. -/
def exFileNoEf : PFile :=
  { exFile with efIndex := none }

/-- Claim C1: the filtered scan is claimed to emit exactly the rows whose key
is in the key set, with no false negatives when the indexes and statistics
are faithful.  Evaluating the code's pipeline at the failing input refutes
the no-false-negative half: for the sorted, deduplicated, non-empty key set
`[5]` and the faithful file `exFile`, the row `(5, 100)` has its key in the
key set, yet the scan emits no row, because `check_page_index` prunes the
page with statistics `(5, 9)` (its min equals the largest key and the
comparison is strict). -/
theorem scan_omits_matching_row_on_page_boundary :
    fileFaithful exFile = true ∧
    (5, 100) ∈ fileRows exFile ∧
    (5 : Nat) ∈ [5] ∧
    scanTable [5] [exFile] = .ok [] := by
  refine ⟨by decide, by decide, by decide, ?_⟩
  rfl

/-- Claim C5: with the Elias-Fano index absent the scan is claimed to log a
warning, drop no key, not skip the file, and produce the same stream as with
a faithful index present.  The first three parts hold (first conjunct), but
the streams differ: with key set `[3, 5, 7]` the faithful-index scan of
`exFile` prunes its keys to `[5]` and then wrongly drops the page whose min
equals that key (strict page-index comparison), emitting nothing, while the
index-less scan of the same file emits the matching row `(5, 100)`. -/
theorem ef_absent_fallback_stream_differs :
    efStage [3, 5, 7] exFileNoEf = (some [3, 5, 7], true) ∧
    fileFaithful exFile = true ∧
    scanTable [3, 5, 7] [exFile] = .ok [] ∧
    scanTable [3, 5, 7] [exFileNoEf] = .ok [(5, 100)] := by
  refine ⟨by rfl, by decide, by rfl, by rfl⟩

/-! ## The whereis query

Embedding of `ProvenanceService::whereis` (`src/rust/src/queries.rs`, lines
486-554) and of `ProvenanceService::swhid` (lines 417-484), over a database
whose relation tables are modelled by their row lists. -/

structure ProvDB where
  c_in_r : List (Nat × Nat)
  c_in_d : List (Nat × Nat)
  d_in_r : List (Nat × Nat)
deriving DecidableEq

structure WhereIsOneResult where
  swhid : String
  anchor : Option String
  origin : Option String
deriving DecidableEq

/-- `ProvenanceService::swhid`: converts node ids (here, the revrel column of
the record batches returned by the `c_in_r` probe) back to SWHIDs.  Both
branches of the source (with and without a graph property store) are
`todo!("node to swhid")`, a panic, modelled as an error. -/
def swhidOfNodeIds (_batches : List (Nat × Nat)) : Except String (List String) :=
  .error "todo: node to swhid"

/-- `ProvenanceService::whereis` for an already-resolved node id: probe
`c_in_r` for rows with `cnt = nodeId` (via `query_x_in_y_table`), then
convert the resulting revrels to SWHIDs with `swhid` and return the last one
as anchor if any; the fallback two-hop lookup through `c_in_d` and `d_in_r`
is present in the source only as a commented-out TODO block (lines 522-547),
so the tables `c_in_d` and `d_in_r` are never consulted. -/
def whereis (db : ProvDB) (swhid : String) (nodeId : Nat) :
    Except String WhereIsOneResult :=
  let cInRBatches := db.c_in_r.filter (fun r => r.1 == nodeId)
  match swhidOfNodeIds cInRBatches with
  | .error e => .error e
  | .ok anchors =>
    match anchors.getLast? with
    | some anchor => .ok { swhid := swhid, anchor := some anchor, origin := none }
    | none => .ok { swhid := swhid, anchor := none, origin := none }

/-- Claim C3: for a content whose node id appears in `c_in_d` (paired with a
dir that appears in `d_in_r`) but not in `c_in_r`, `whereis` is claimed to
return the anchor found by the two-hop join.  Evaluating the code at such an
input (node id `1`, `c_in_d = [(1, 2)]`, `d_in_r = [(2, 3)]`, `c_in_r = []`)
shows it cannot: the two-hop block is commented out, and the call aborts in
the unimplemented revrel-to-SWHID conversion (`todo!()`), so no anchor is
ever produced; moreover the result is the same however `c_in_d` and `d_in_r`
are populated, showing they are never read. -/
theorem whereis_two_hop_unreachable :
    whereis { c_in_r := [], c_in_d := [(1, 2)], d_in_r := [(2, 3)] } "s" 1 =
      .error "todo: node to swhid" ∧
    (∀ cd dr : List (Nat × Nat),
      whereis { c_in_r := [], c_in_d := cd, d_in_r := dr } "s" 1 =
        .error "todo: node to swhid") := by
  exact ⟨rfl, fun cd dr => rfl⟩

/-! ## Table construction and the schema check

Embedding of `Table::new` (`src/rust/src/database/table.rs`, lines 40-128):
the listed files' footers are read; the metadata list is `pop`ped (removing
the last file) and every remaining file's schema descriptor must equal the
last one's; an empty directory is an error.  A schema descriptor is the list
of columns (name, physical type, nullability); the key-value metadata is
deliberately not compared (table.rs lines 120-122). -/

structure ColumnSchema where
  name : String
  dtype : String
  nullable : Bool
deriving DecidableEq

structure ParquetFileMeta where
  schemaDescr : List ColumnSchema
  keyValueMetadata : List (String × String)
deriving DecidableEq

/-- `Table::new`'s metadata validation: error when the table directory holds
no files, or when some file's schema descriptor differs from the last
file's. -/
def tableNew (files : List ParquetFileMeta) :
    Except String (List ColumnSchema) :=
  match files.getLast? with
  | none => .error "No files in table"
  | some last =>
    if files.dropLast.all (fun f => decide (f.schemaDescr = last.schemaDescr))
    then .ok last.schemaDescr
    else .error "Schemas differ"

/-- Claim C6: `Table::new` succeeds iff the directory is non-empty and all
files share one schema descriptor (fields, types, nullability); files whose
key-value metadata differ do not cause an error (the right-hand side does not
mention `keyValueMetadata`), and any two files with unequal schema
descriptors cause an error. -/
theorem tableNew_ok_iff_nonempty_and_schemas_equal
    (files : List ParquetFileMeta) :
    (tableNew files).isOk = true ↔
      (files ≠ [] ∧
       ∀ f ∈ files, ∀ g ∈ files, f.schemaDescr = g.schemaDescr) := by
  cases hlast : files.getLast? with
  | none =>
    rw [List.getLast?_eq_none_iff] at hlast
    subst hlast
    simp [tableNew, Except.isOk, Except.toBool]
  | some last =>
    have hmem : last ∈ files := List.mem_of_getLast?_eq_some hlast
    have hsplit : files.dropLast ++ [last] = files :=
      List.dropLast_append_getLast? last hlast
    have hne : files ≠ [] := by
      intro h
      subst h
      simp at hlast
    by_cases hc : files.dropLast.all
        (fun f => decide (f.schemaDescr = last.schemaDescr)) = true
    · simp only [tableNew, hlast, if_pos hc]
      constructor
      · intro hok
        rw [List.all_eq_true] at hc
        refine ⟨hne, ?_⟩
        have heach : ∀ f ∈ files, f.schemaDescr = last.schemaDescr := by
          intro f hf
          rw [← hsplit] at hf
          rcases List.mem_append.1 hf with hdrop | hlast2
          · exact of_decide_eq_true (hc f hdrop)
          · rw [List.mem_singleton.1 hlast2]
        intro f hf g hg
        rw [heach f hf, heach g hg]
      · intro hall
        rfl
    · simp only [tableNew, hlast, if_neg hc]
      constructor
      · intro h
        exact absurd h (by simp [Except.isOk, Except.toBool])
      · rintro ⟨-, hall⟩
        exfalso
        apply hc
        rw [List.all_eq_true]
        intro f hf
        have hfmem : f ∈ files := by
          rw [← hsplit]
          exact List.mem_append.2 (Or.inl hf)
        exact decide_eq_true (hall f hfmem last hmem)

/-! ## Metadata caching

Embedding of `CachingParquetFileReader::get_metadata_async`
(`src/rust/src/database/caching_parquet_reader.rs`, lines 121-153).  The
inner reader is modelled as a function from the call count to the response of
its `get_metadata`; the cache state holds the memoised metadata and the
number of inner calls performed so far. -/

structure Footer where
  content : Nat
  pageIndexLoaded : Bool
deriving DecidableEq

structure CacheState where
  metadata : Option Footer
  innerCalls : Nat
deriving DecidableEq

/-- `MetadataLoader::load_page_index(true, true)`: enrich the bare footer
with the column index and offset index. -/
def loadPageIndex (f : Footer) : Footer :=
  { f with pageIndexLoaded := true }

/-- `CachingParquetFileReader::get_metadata_async`: return the cached
metadata if present; otherwise call the inner reader, eagerly enrich the
footer with the page index, cache the enriched metadata and return it.  An
inner error is propagated and nothing is cached. -/
def getMetadata (inner : Nat → Except String Footer) (s : CacheState) :
    Except String Footer × CacheState :=
  match s.metadata with
  | some m => (.ok m, s)
  | none =>
    match inner s.innerCalls with
    | .ok m =>
      let enriched := loadPageIndex m
      (.ok enriched, { metadata := some enriched, innerCalls := s.innerCalls + 1 })
    | .error e => (.error e, { s with innerCalls := s.innerCalls + 1 })

/-- Claim C7: the first successful `get_metadata` call loads the footer and
eagerly enriches it with the page index before caching it, and every
subsequent call returns that same cached, page-index-enriched metadata
without invoking the inner reader again: the second call's answer is the
cached value and the state is unchanged, for an arbitrary behaviour
`inner2` of the inner reader. -/
theorem getMetadata_caches_enriched_metadata
    (inner inner2 : Nat → Except String Footer) (n : Nat) (m : Footer)
    (h : inner n = .ok m) :
    getMetadata inner { metadata := none, innerCalls := n } =
      (.ok (loadPageIndex m),
       { metadata := some (loadPageIndex m), innerCalls := n + 1 }) ∧
    (loadPageIndex m).pageIndexLoaded = true ∧
    getMetadata inner2
        { metadata := some (loadPageIndex m), innerCalls := n + 1 } =
      (.ok (loadPageIndex m),
       { metadata := some (loadPageIndex m), innerCalls := n + 1 }) := by
  refine ⟨?_, rfl, rfl⟩
  unfold getMetadata
  simp [h]

/-- Witness for claim C7 at a concrete input: an inner reader that returns
the bare footer `42` on its first call, and a second inner reader that always
fails (showing it is not consulted). -/
theorem getMetadata_caches_enriched_metadata_witness :
    getMetadata (fun _ => .ok { content := 42, pageIndexLoaded := false })
        { metadata := none, innerCalls := 0 } =
      (.ok (loadPageIndex { content := 42, pageIndexLoaded := false }),
       { metadata := some (loadPageIndex { content := 42, pageIndexLoaded := false }),
         innerCalls := 0 + 1 }) ∧
    (loadPageIndex { content := 42, pageIndexLoaded := false }).pageIndexLoaded
      = true ∧
    getMetadata (fun _ => .error "inner reader must not be called")
        { metadata := some (loadPageIndex { content := 42, pageIndexLoaded := false }),
          innerCalls := 0 + 1 } =
      (.ok (loadPageIndex { content := 42, pageIndexLoaded := false }),
       { metadata := some (loadPageIndex { content := 42, pageIndexLoaded := false }),
         innerCalls := 0 + 1 }) :=
  getMetadata_caches_enriched_metadata
    (fun _ => .ok { content := 42, pageIndexLoaded := false })
    (fun _ => .error "inner reader must not be called") 0
    { content := 42, pageIndexLoaded := false } rfl

/-! ## The reader pool

Embedding of `ParquetFileReaderPool::try_get_reader` and
`impl Drop for PooledParquetFileReader`
(`src/rust/src/database/pooled_reader.rs`, lines 23-37 and 89-96).  The
pool's lock-free queue is a list of inner readers (identified by a number);
the weak back-reference is modelled by handing `Drop` an
`Option (List Nat)`: `none` when the pool has been dropped (the upgrade
fails), `some q` when it is alive with queue `q`. -/

structure PooledReader where
  inner : Nat
deriving DecidableEq

/-- `ParquetFileReaderPool::try_get_reader`: pop an idle reader from the
queue, or call the factory once when the queue is empty; a factory error is
propagated. -/
def tryGetReader (q : List Nat) (factory : Except String Nat) :
    Except String (PooledReader × List Nat) :=
  match q with
  | [] =>
    match factory with
    | .ok r => .ok ({ inner := r }, [])
    | .error e => .error e
  | r :: rest => .ok ({ inner := r }, rest)

/-- `Drop for PooledParquetFileReader`: upgrade the weak back-reference and,
if the pool still exists, push the wrapped inner reader back onto its
queue; otherwise the reader is simply discarded. -/
def dropReader (r : PooledReader) (pool : Option (List Nat)) :
    Option (List Nat) :=
  match pool with
  | none => none
  | some q => some (q ++ [r.inner])

/-- Claim C9: dropping a leased reader pushes its wrapped inner reader back
onto the pool's queue iff the pool still exists at drop time (first two
conjuncts), and on a live pool the reader count never decreases across an
acquire/release cycle (last conjunct). -/
theorem leased_reader_drop_returns_iff_pool_alive
    (r : PooledReader) (q : List Nat) (factory : Except String Nat)
    (leased : PooledReader) (rest : List Nat)
    (hacq : tryGetReader q factory = .ok (leased, rest)) :
    dropReader r (some q) = some (q ++ [r.inner]) ∧
    dropReader r none = none ∧
    ∃ q2, dropReader leased (some rest) = some q2 ∧ q.length ≤ q2.length := by
  refine ⟨rfl, rfl, rest ++ [leased.inner], rfl, ?_⟩
  cases q with
  | nil =>
    simp
  | cons a t =>
    have h1 : { inner := a } = leased ∧ t = rest := by
      simpa [tryGetReader, Prod.ext_iff] using hacq
    rcases h1 with ⟨h1, h2⟩
    subst h2
    simp

/-- Witness for claim C9 at a concrete input: a pool whose queue holds the
idle reader `7`; acquiring leases reader `7` and leaves the queue empty, and
all three conjuncts evaluate on those concrete values. -/
theorem leased_reader_drop_returns_iff_pool_alive_witness :
    dropReader { inner := 4 } (some [7]) = some ([7] ++ [4]) ∧
    dropReader { inner := 4 } none = none ∧
    ∃ q2, dropReader { inner := 7 } (some []) = some q2 ∧
      ([7] : List Nat).length ≤ q2.length :=
  leased_reader_drop_returns_iff_pool_alive { inner := 4 } [7]
    (.error "factory unused") { inner := 7 } [] rfl

/-! ## SWHID-to-node-id lookup and its duplicate check

Embedding of `node_ids_from_swhids` (`src/rust/src/queries.rs`, lines
212-245; the same check appears in `ProvenanceServiceInner::node_id`,
`src/rust/src/grpc_server/mod.rs`, lines 174-184), used when no graph
property store is configured.  A parsed SWHID carries a node type and a
20-byte `sha1_git` hash, modelled as a `Nat` below `2^160` (fixed-length
byte strings compare like the corresponding numbers).  The function sorts
the hashes, builds a hash set from them, and rejects the request with the
`Unimplemented` status when the sorted list is longer than the set — i.e. it
compares only hashes, never whole SWHIDs — before any table scan starts. -/

structure ModelSWHID where
  nodeType : String
  hash : Nat
deriving DecidableEq

/-- Possible outcomes of the SWHID-to-node-id lookup, up to the point where
the scan of the `node` table would start. -/
inductive LookupOutcome where
  | unimplemented (msg : String)
  | scan (sortedHashes : List Nat)
deriving DecidableEq

/-- The sorted list of `sha1_git` hashes (`sha1_gits.sort_unstable()`). -/
def sortedSha1Gits (swhids : List ModelSWHID) : List Nat :=
  (swhids.map ModelSWHID.hash).mergeSort (fun a b => decide (a ≤ b))

/-- The duplicate check of `node_ids_from_swhids`: reject with
`Unimplemented` when the hash list is longer than the set of its elements
(the set's size is the number of distinct hashes, i.e. the length of the
deduplicated list); otherwise proceed to the table scan with the sorted
hashes. -/
def nodeIdsFromSwhids (swhids : List ModelSWHID) : LookupOutcome :=
  if (sortedSha1Gits swhids).length ≠ (sortedSha1Gits swhids).dedup.length then
    .unimplemented "Duplicated SWHIDs in input"
  else
    .scan (sortedSha1Gits swhids)

/-- A list with a duplicate deduplicates to a strictly shorter list. -/
theorem dedup_length_ne_of_not_nodup {l : List Nat} (h : ¬ l.Nodup) :
    l.dedup.length ≠ l.length := by
  intro hlen
  exact h (List.dedup_eq_self.1 ((List.dedup_sublist l).eq_of_length hlen))

/-- Whenever the hash column of the request has a duplicate, the lookup stops
with the `Unimplemented` status before scanning. -/
theorem reject_of_hash_dup (swhids : List ModelSWHID)
    (hmap : ¬ (swhids.map ModelSWHID.hash).Nodup) :
    nodeIdsFromSwhids swhids = .unimplemented "Duplicated SWHIDs in input" := by
  have hsorted : ¬ (sortedSha1Gits swhids).Nodup := by
    unfold sortedSha1Gits
    rw [(List.mergeSort_perm (swhids.map ModelSWHID.hash)
      (fun a b => decide (a ≤ b))).nodup_iff]
    exact hmap
  unfold nodeIdsFromSwhids
  rw [if_pos (dedup_length_ne_of_not_nodup hsorted).symm]

/-- Claim C8: a batch request that contains the same SWHID more than once is
aborted with the `Unimplemented` status instead of proceeding to the table
scan. -/
theorem duplicate_swhids_rejected_unimplemented
    (swhids : List ModelSWHID) (h : ¬ swhids.Nodup) :
    nodeIdsFromSwhids swhids = .unimplemented "Duplicated SWHIDs in input" := by
  refine reject_of_hash_dup swhids (fun hn => h ?_)
  exact hn.of_map ModelSWHID.hash

/-- Witness for claim C8 at a concrete input: the same SWHID twice. -/
theorem duplicate_swhids_rejected_unimplemented_witness :
    nodeIdsFromSwhids
        [{ nodeType := "cnt", hash := 5 }, { nodeType := "cnt", hash := 5 }] =
      .unimplemented "Duplicated SWHIDs in input" :=
  duplicate_swhids_rejected_unimplemented
    [{ nodeType := "cnt", hash := 5 }, { nodeType := "cnt", hash := 5 }]
    (by decide)

/-- Claim C10: duplicate detection compares only the 20-byte `sha1_git`
hashes, not full SWHIDs: a request containing two distinct SWHIDs that differ
in node type but share the same hash is rejected with the
`Unimplemented` "Duplicated SWHIDs in input" status even though no SWHID is
actually duplicated (the two SWHIDs are unequal). -/
theorem dup_check_compares_only_hashes
    (swhids : List ModelSWHID) (s1 s2 : ModelSWHID)
    (h1 : s1 ∈ swhids) (h2 : s2 ∈ swhids)
    (hne : s1.nodeType ≠ s2.nodeType) (hh : s1.hash = s2.hash) :
    s1 ≠ s2 ∧
    nodeIdsFromSwhids swhids = .unimplemented "Duplicated SWHIDs in input" := by
  have hs12 : s1 ≠ s2 := fun he => hne (he ▸ rfl)
  refine ⟨hs12, reject_of_hash_dup swhids (fun hn => ?_)⟩
  exact hs12 (List.inj_on_of_nodup_map hn h1 h2 hh)

/-- Witness for claim C10 at a concrete input: a `cnt` SWHID and a `dir`
SWHID with the same hash. -/
theorem dup_check_compares_only_hashes_witness :
    ({ nodeType := "cnt", hash := 5 } : ModelSWHID) ≠
      { nodeType := "dir", hash := 5 } ∧
    nodeIdsFromSwhids
        [{ nodeType := "cnt", hash := 5 }, { nodeType := "dir", hash := 5 }] =
      .unimplemented "Duplicated SWHIDs in input" :=
  dup_check_compares_only_hashes
    [{ nodeType := "cnt", hash := 5 }, { nodeType := "dir", hash := 5 }]
    { nodeType := "cnt", hash := 5 } { nodeType := "dir", hash := 5 }
    (by decide) (by decide) (by decide) rfl

end SwhProvenance
